import Mathlib

/-!
Verification of the TAO dashboard analytics core against its specification.

The analytics routes are embedded shallowly:
* stored decimal values are modelled as `Option ℚ` (`none` = a stored value that
  does not parse to a finite number) and in-memory numbers as `ℚ`, so every
  `Number.isFinite` guard of the source is identically true once a value has
  been parsed;
* the database queries become function-valued parameters of the models;
* JavaScript `Map`/`Set` accumulators become total functions with default `0`
  together with `Finset`s of touched keys (the per-key loop bodies of the
  source are independent across keys, so the iteration over a key set is
  rendered as one simultaneous pointwise update).
-/

namespace Flow

/-- Flow Classifier `isFlowLikely` from the performance route.  The source's
`Number.isFinite` checks on `alphaPct` and `valuePct` are identically true over
`ℚ`.  Threshold defaults are the source defaults `0.05` and `0.10`. -/
def isFlowLikely (alphaStart alphaEnd valueTaoStart valueTaoEnd : ℚ)
    (alphaPctThreshold : ℚ := 5 / 100) (valuePctThreshold : ℚ := 10 / 100) : Bool :=
  if ¬ (0 < alphaEnd - alphaStart) then false
  else if ¬ (0 < alphaStart) then true
  else if alphaPctThreshold < |alphaEnd - alphaStart| / alphaStart then true
  else if 0 < valueTaoStart ∧ valuePctThreshold < |valueTaoEnd - valueTaoStart| / valueTaoStart
    then true
  else false

end Flow

namespace Perf

/-- The performance route's `num`: a stored decimal is coerced to a number,
with any non-finite parse result becoming `0`. -/
def num (x : Option ℚ) : ℚ := x.getD 0

/-- State of the max-drawdown forward pass: the running peak (`none` models the
initial `-Infinity`) and the most negative drawdown seen so far (`none` models
the initial `null`). -/
structure DDState where
  peak : Option ℚ
  mdd : Option ℚ
deriving DecidableEq

/-- One iteration of the max-drawdown loop of the performance route.  The
source's `if (!Number.isFinite(v)) continue` can never fire because `num` has
already coerced non-finite values to `0`. -/
def ddStep (st : DDState) (s : Option ℚ) : DDState :=
  let v := num s
  let p : ℚ :=
    match st.peak with
    | none => v
    | some p0 => if p0 < v then v else p0
  if 0 < p then
    let dd := (v / p - 1) * 100
    match st.mdd with
    | none => ⟨some p, some dd⟩
    | some m => ⟨some p, some (if dd < m then dd else m)⟩
  else ⟨some p, st.mdd⟩

/-- The performance route's `maxDrawdownPct`: single forward pass over the
selected snapshots' stored `totalValueTao` values. -/
def maxDrawdownPct (stored : List (Option ℚ)) : Option ℚ :=
  (stored.foldl ddStep ⟨none, none⟩).mdd

/-- A subnet position's state inside one snapshot, as bucketed by the
performance route (`alpha` and `valueTao` after `num` coercion). -/
structure PosState where
  alpha : ℚ
  valueTao : ℚ
deriving DecidableEq

/-- Per-position price at a snapshot, as computed when rows are bucketed:
`alpha > 0 && valueTao > 0 ? valueTao / alpha : 0`. -/
def priceTao (p : PosState) : ℚ :=
  if 0 < p.alpha ∧ 0 < p.valueTao then p.valueTao / p.alpha else 0

/-- The positions of one snapshot: the set of identity keys present in the
snapshot and their states.  `K` is the identity key type (the source uses the
string `netuid:hotkey`). -/
structure SnapPos (K : Type) where
  present : Finset K
  st : K → PosState

variable {K : Type} [DecidableEq K]

/-- Map lookup: `undefined` for keys not present in the snapshot. -/
def SnapPos.get (m : SnapPos K) (k : K) : Option PosState :=
  if k ∈ m.present then some (m.st k) else none

/-- The source's `s?.alpha ?? 0` for one side of an interval. -/
def alphaAt (m : SnapPos K) (k : K) : ℚ := ((m.get k).map PosState.alpha).getD 0

/-- The source's `s?.valueTao ?? 0` for one side of an interval. -/
def valueTaoAt (m : SnapPos K) (k : K) : ℚ := ((m.get k).map PosState.valueTao).getD 0

/-- The delta `earned = alphaEnd - alphaStart` for one interval pair and one key. -/
def earnedAt (m0 m1 : SnapPos K) (k : K) : ℚ := alphaAt m1 k - alphaAt m0 k

/-- The end price `endPrice = s1?.priceTao ?? 0`. -/
def endPriceAt (m1 : SnapPos K) (k : K) : ℚ := ((m1.get k).map priceTao).getD 0

/-- The impact `taoImpact = endPrice > 0 ? earned * endPrice : 0`. -/
def taoImpactAt (m0 m1 : SnapPos K) (k : K) : ℚ :=
  if 0 < endPriceAt m1 k then earnedAt m0 m1 k * endPriceAt m1 k else 0

/-- The Flow Classifier applied to one interval pair and one key, with the
source's default thresholds. -/
def flowAt (m0 m1 : SnapPos K) (k : K) : Bool :=
  Flow.isFlowLikely (alphaAt m0 k) (alphaAt m1 k) (valueTaoAt m0 k) (valueTaoAt m1 k)

/-- The five per-key accumulator maps of the attribution loop, as total
functions with default `0`, plus the key sets of the net and staking maps.
In the source `alphaNetByKey` and `taoNetByKey` (resp. `alphaStakingByKey` and
`taoStakingByKey`) always gain keys at the same program point, so one key set
per view suffices. -/
structure Accum (K : Type) where
  alphaNet : K → ℚ
  alphaStaking : K → ℚ
  taoNet : K → ℚ
  taoStaking : K → ℚ
  flowCount : K → ℕ
  netKeys : Finset K
  stakingKeys : Finset K

def Accum.init : Accum K :=
  ⟨fun _ => 0, fun _ => 0, fun _ => 0, fun _ => 0, fun _ => 0, ∅, ∅⟩

/-- One interval pair of the attribution loop.  The source iterates over the
union of the two snapshots' key sets; each key's updates touch only that key's
accumulator slots, so the iteration is rendered as a simultaneous pointwise
update.  A key absent from both snapshots has `earned = 0` and is skipped
exactly as in the source (the `Number.isFinite(earned)` guard is identically
true over `ℚ`). -/
def stepInterval (A : Accum K) (p : SnapPos K × SnapPos K) : Accum K where
  alphaNet := fun k =>
    if earnedAt p.1 p.2 k ≠ 0 then A.alphaNet k + earnedAt p.1 p.2 k else A.alphaNet k
  taoNet := fun k =>
    if earnedAt p.1 p.2 k ≠ 0 then A.taoNet k + taoImpactAt p.1 p.2 k else A.taoNet k
  alphaStaking := fun k =>
    if earnedAt p.1 p.2 k ≠ 0 ∧ flowAt p.1 p.2 k = false then
      A.alphaStaking k + earnedAt p.1 p.2 k
    else A.alphaStaking k
  taoStaking := fun k =>
    if earnedAt p.1 p.2 k ≠ 0 ∧ flowAt p.1 p.2 k = false then
      A.taoStaking k + taoImpactAt p.1 p.2 k
    else A.taoStaking k
  flowCount := fun k =>
    if earnedAt p.1 p.2 k ≠ 0 ∧ flowAt p.1 p.2 k = true then A.flowCount k + 1
    else A.flowCount k
  netKeys :=
    A.netKeys ∪ (p.1.present ∪ p.2.present).filter (fun k => earnedAt p.1 p.2 k ≠ 0)
  stakingKeys :=
    A.stakingKeys ∪ (p.1.present ∪ p.2.present).filter
      (fun k => earnedAt p.1 p.2 k ≠ 0 ∧ flowAt p.1 p.2 k = false)

/-- The consecutive interval pairs of the selected snapshot list. -/
def intervals (snaps : List (SnapPos K)) : List (SnapPos K × SnapPos K) :=
  snaps.zip snaps.tail

/-- The attribution loop of the performance route over the selected snapshots. -/
def runAttribution (snaps : List (SnapPos K)) : Accum K :=
  (intervals snaps).foldl stepInterval Accum.init

/-- Sum of the earned deltas over exactly the interval pairs the Flow
Classifier flags as flow for one identity (spec-side quantity for the
net = staking + flow decomposition). -/
def flowEarnedSum (snaps : List (SnapPos K)) (k : K) : ℚ :=
  ((intervals snaps).map
    (fun p => if flowAt p.1 p.2 k = true then earnedAt p.1 p.2 k else 0)).sum

/-- Sum of the `taoImpact` contributions over exactly the flow-flagged interval
pairs for one identity (spec-side quantity). -/
def flowTaoSum (snaps : List (SnapPos K)) (k : K) : ℚ :=
  ((intervals snaps).map
    (fun p => if flowAt p.1 p.2 k = true then taoImpactAt p.1 p.2 k else 0)).sum

/-- The total `totalImpactNet`: reduce over the values of `taoNetByKey` (over `ℚ` the
finite filter of the source is the identity). -/
def totalImpactNet (A : Accum K) : ℚ := ∑ k ∈ A.netKeys, A.taoNet k

/-- The total `totalImpactStaking`: reduce over the values of `taoStakingByKey`. -/
def totalImpactStaking (A : Accum K) : ℚ := ∑ k ∈ A.stakingKeys, A.taoStaking k

/-- The set `allKeys`: union of the net and staking key sets, over which the
contributor records are produced. -/
def allKeys (A : Accum K) : Finset K := A.netKeys ∪ A.stakingKeys

/-- The share `sharePctNet = totalImpactNet > 0 ? taoNet / totalImpactNet * 100 : 0`. -/
def sharePctNet (A : Accum K) (k : K) : ℚ :=
  if 0 < totalImpactNet A then A.taoNet k / totalImpactNet A * 100 else 0

/-- The share `sharePctStaking`, analogous to `sharePctNet`. -/
def sharePctStaking (A : Accum K) (k : K) : ℚ :=
  if 0 < totalImpactStaking A then A.taoStaking k / totalImpactStaking A * 100 else 0

/-- Two-snapshot example used by witnesses: one identity (key 1) absent from
the first snapshot and appearing with alpha 7 (TAO value 7) in the second —
a deposit, flagged as flow by the classifier. -/
def exFlowSnaps : List (SnapPos ℕ) :=
  [⟨∅, fun _ => ⟨0, 0⟩⟩, ⟨{1}, fun _ => ⟨7, 7⟩⟩]

end Perf

namespace Port

/-- One point of a position's series as consumed by the APY windowing: the
`Date.parse` result of `capturedAt` in milliseconds (`none` = unparseable) and
the `num` parse of the stored `valueTao` (`none` = non-finite; the route's
`num` returns `null` for non-finite input). -/
structure SeriesPoint where
  t : Option ℚ
  valueTao : Option ℚ
deriving DecidableEq

/-- The portfolio route's `fmtPct`, i.e. `x.toFixed(2)`: deterministic
two-decimal formatting.  ECMAScript `toFixed` extracts the sign and then picks
the integer `n` with `n / 100` closest to the magnitude, resolving ties
upward. -/
def fmtPct (x : ℚ) : String :=
  let sgn := if x < 0 then "-" else ""
  let n : ℕ := (⌊|x| * 100 + 1 / 2⌋).toNat
  sgn ++ Nat.repr (n / 100) ++ "." ++
    (if n % 100 < 10 then "0" ++ Nat.repr (n % 100) else Nat.repr (n % 100))

/-- The route's `computeApyFromSnapshots`.  `Math.pow` is an external numeric primitive of
the runtime, supplied here as the parameter `powf`; over `ℚ` the two
`Number.isFinite` guards of the source are identically true. -/
def computeApyFromSnapshots (powf : ℚ → ℚ → ℚ)
    (startValueTao endValueTao days : ℚ) : String :=
  if ¬ (0 < startValueTao) ∨ ¬ (0 < days) then ""
  else
    let r := (endValueTao - startValueTao) / startValueTao
    let apy := powf (1 + r) (365 / days) - 1
    fmtPct (apy * 100)

/-- The route's `findPointAtOrBefore`: latest point whose parsed timestamp is finite and
at or before the cutoff (the source scans backward from the end of the
chronologically ascending series). -/
def findPointAtOrBefore (series : List SeriesPoint) (cutoffMs : ℚ) :
    Option SeriesPoint :=
  series.reverse.find? (fun p =>
    match p.t with
    | some tv => decide (tv ≤ cutoffMs)
    | none => false)

/-- One APY field of the route's per-position loop: the field starts as the
empty string and is assigned only when both the series' end value and the
window's start value exist. -/
def apyField (powf : ℚ → ℚ → ℚ) (series : List SeriesPoint) (endMs d : ℚ) :
    String :=
  let endVal := (series.getLast?).bind SeriesPoint.valueTao
  let vd := (findPointAtOrBefore series (endMs - d * 86400000)).bind SeriesPoint.valueTao
  match endVal, vd with
  | some ev, some sv => computeApyFromSnapshots powf sv ev d
  | _, _ => ""

end Port

namespace Sig

/-- Signal severity. -/
inductive Severity
  | INFO
  | WARN
  | CRITICAL
deriving DecidableEq

/-- The six signal types of the anomaly engine. -/
inductive SigType
  | FLOW_SPIKE
  | NEGATIVE_FLOW_STREAK
  | EMISSION_SHOCK
  | LIQUIDITY_DRAIN
  | POSITION_VALUE_SHOCK
  | CONCENTRATION_RISK
deriving DecidableEq

/-- The wire name of a signal type, used in the signal id. -/
def SigType.typeName : SigType → String
  | .FLOW_SPIKE => "FLOW_SPIKE"
  | .NEGATIVE_FLOW_STREAK => "NEGATIVE_FLOW_STREAK"
  | .EMISSION_SHOCK => "EMISSION_SHOCK"
  | .LIQUIDITY_DRAIN => "LIQUIDITY_DRAIN"
  | .POSITION_VALUE_SHOCK => "POSITION_VALUE_SHOCK"
  | .CONCENTRATION_RISK => "CONCENTRATION_RISK"

/-- Severity rank `sevRank`: CRITICAL 3, WARN 2, INFO 1. -/
def sevRank : Severity → ℕ
  | .CRITICAL => 3
  | .WARN => 2
  | .INFO => 1

/-- The signals route's `meanStd`, with the population standard deviation
carried as its square: the source's `clampEps(std)` with `std = √varPop`
satisfies `clampEps(√varPop)² = if varPop < 1e-18 then 1e-18 else varPop`, and
every comparison the route makes against `std` has the shape `|z| ≥ t` or
`z ≤ -t` with `t ≥ 0`, which squares exactly.  The source's finite filter is
the identity over `ℚ`. -/
def meanStdSq (values : List ℚ) : Option (ℚ × ℚ) :=
  if values.length < 2 then none
  else
    let mean := values.sum / (values.length : ℚ)
    let varPop := (values.map (fun v => (v - mean) ^ 2)).sum / (values.length : ℚ)
    some (mean, if varPop < 1 / 10 ^ 18 then 1 / 10 ^ 18 else varPop)

/-- FLOW_SPIKE severity selection (signals route, block A1): z band when at
least 14 finite history points exist, otherwise day-over-day percentage band
when yesterday's value exists; if neither band assigned a severity the
absolute band is consulted.  `|z| ≥ t` is expressed as
`t² · std² ≤ (today - mean)²`. -/
def flowSpikeSeverity (flowToday : ℚ) (flowHist : List ℚ) (yFlow : Option ℚ) :
    Option Severity :=
  let zSq : Option (ℚ × ℚ) :=
    match meanStdSq flowHist with
    | some ms => if 14 ≤ flowHist.length then some ms else none
    | none => none
  let sev0 : Option Severity :=
    match zSq with
    | some ms =>
      if 16 * ms.2 ≤ (flowToday - ms.1) ^ 2 then some .CRITICAL
      else if 9 * ms.2 ≤ (flowToday - ms.1) ^ 2 then some .WARN
      else if 4 * ms.2 ≤ (flowToday - ms.1) ^ 2 then some .INFO
      else none
    | none =>
      match yFlow with
      | some y =>
        let pct := (flowToday - y) / max |y| 1
        if 4 ≤ |pct| then some .CRITICAL
        else if 2 ≤ |pct| then some .WARN
        else if 1 ≤ |pct| then some .INFO
        else none
      | none => none
  match sev0 with
  | some s => some s
  | none =>
    if 10 ^ 13 ≤ |flowToday| then some .CRITICAL
    else if 5 * 10 ^ 12 ≤ |flowToday| then some .WARN
    else if 2 * 10 ^ 12 ≤ |flowToday| then some .INFO
    else none

/-- Rule (1) of the FLOW_SPIKE claim, following the claim's words: z-score
band over the history, population mean and std, std floored at `1e-9` (std
carried squared as in `meanStdSq`). -/
def zSevSpec (today : ℚ) (hist : List ℚ) : Option Severity :=
  let mean := hist.sum / (hist.length : ℚ)
  let varPop := (hist.map (fun v => (v - mean) ^ 2)).sum / (hist.length : ℚ)
  let sSq := if varPop < 1 / 10 ^ 18 then 1 / 10 ^ 18 else varPop
  if 16 * sSq ≤ (today - mean) ^ 2 then some .CRITICAL
  else if 9 * sSq ≤ (today - mean) ^ 2 then some .WARN
  else if 4 * sSq ≤ (today - mean) ^ 2 then some .INFO
  else none

/-- Rule (2) of the FLOW_SPIKE claim: day-over-day percentage band vs
yesterday, `pct = (today - yesterday) / max(|yesterday|, 1)`. -/
def pctSevSpec (today : ℚ) (y : Option ℚ) : Option Severity :=
  match y with
  | some yv =>
    let pct := (today - yv) / max |yv| 1
    if 4 ≤ |pct| then some .CRITICAL
    else if 2 ≤ |pct| then some .WARN
    else if 1 ≤ |pct| then some .INFO
    else none
  | none => none

/-- Rule (3) of the FLOW_SPIKE claim: absolute band on today's flow. -/
def absSevSpec (today : ℚ) : Option Severity :=
  if 10 ^ 13 ≤ |today| then some .CRITICAL
  else if 5 * 10 ^ 12 ≤ |today| then some .WARN
  else if 2 * 10 ^ 12 ≤ |today| then some .INFO
  else none

/-- NEGATIVE_FLOW_STREAK severity from the consecutive-negative-days streak. -/
def streakSev (streak : ℕ) : Option Severity :=
  if 7 ≤ streak then some .CRITICAL
  else if 3 ≤ streak then some .WARN
  else none

/-- Length of the run of consecutive days with negative `flow24h`, scanning
the newest-first rows and stopping at the first missing or non-negative
value. -/
def streakLen (flows : List (Option ℚ)) : ℕ :=
  (flows.takeWhile (fun f =>
    match f with
    | some v => decide (v < 0)
    | none => false)).length

/-- EMISSION_SHOCK severity (block B1): day-over-day band checked before the
z band; no absolute fallback. -/
def emissionSeverity (emisToday : ℚ) (emisHist : List ℚ) (yEmis : Option ℚ) :
    Option Severity :=
  let zSq : Option (ℚ × ℚ) :=
    match meanStdSq emisHist with
    | some ms => if 14 ≤ emisHist.length then some ms else none
    | none => none
  match yEmis with
  | some y =>
    let ad := |emisToday - y|
    if 3 / 2 ≤ ad then some .CRITICAL
    else if 3 / 4 ≤ ad then some .WARN
    else if 1 / 4 ≤ ad then some .INFO
    else none
  | none =>
    match zSq with
    | some ms =>
      if 16 * ms.2 ≤ (emisToday - ms.1) ^ 2 then some .CRITICAL
      else if 9 * ms.2 ≤ (emisToday - ms.1) ^ 2 then some .WARN
      else if 4 * ms.2 ≤ (emisToday - ms.1) ^ 2 then some .INFO
      else none
    | none => none

/-- LIQUIDITY_DRAIN severity (block C1): percentage-drop band vs yesterday
(only when yesterday's liquidity is positive) checked before the signed z band
`z ≤ -t`, expressed as `0 ≤ mean - today ∧ t² · std² ≤ (mean - today)²`. -/
def liquiditySeverity (liqToday : ℚ) (liqHist : List ℚ) (yLiq : Option ℚ) :
    Option Severity :=
  let zSq : Option (ℚ × ℚ) :=
    match meanStdSq liqHist with
    | some ms => if 14 ≤ liqHist.length then some ms else none
    | none => none
  let pct : Option ℚ :=
    match yLiq with
    | some y => if 0 < y then some ((liqToday - y) / y) else none
    | none => none
  match pct with
  | some p =>
    if p ≤ -(2 / 5) then some .CRITICAL
    else if p ≤ -(1 / 4) then some .WARN
    else if p ≤ -(1 / 10) then some .INFO
    else none
  | none =>
    match zSq with
    | some ms =>
      if 0 ≤ ms.1 - liqToday ∧ 16 * ms.2 ≤ (ms.1 - liqToday) ^ 2 then some .CRITICAL
      else if 0 ≤ ms.1 - liqToday ∧ 9 * ms.2 ≤ (ms.1 - liqToday) ^ 2 then some .WARN
      else if 0 ≤ ms.1 - liqToday ∧ 4 * ms.2 ≤ (ms.1 - liqToday) ^ 2 then some .INFO
      else none
    | none => none

/-- POSITION_VALUE_SHOCK severity (block D1): requires today's and the prior
day's position USD values, the latter positive. -/
def pvShockSev (todayValueUsd prevValueUsd : Option ℚ) : Option Severity :=
  match todayValueUsd, prevValueUsd with
  | some tv, some pv =>
    if 0 < pv then
      let pct := (tv - pv) / pv
      if 1 / 5 ≤ |pct| then some .CRITICAL
      else if 1 / 10 ≤ |pct| then some .WARN
      else if 1 / 20 ≤ |pct| then some .INFO
      else none
    else none
  | _, _ => none

/-- CONCENTRATION_RISK severity (block D4): weight of the position in the
portfolio total, requiring a positive total. -/
def concSev (portfolioTotalUsd todayValueUsd : Option ℚ) : Option Severity :=
  match portfolioTotalUsd, todayValueUsd with
  | some tot, some tv =>
    if 0 < tot then
      let w := tv / tot
      if 7 / 20 ≤ w then some .CRITICAL
      else if 1 / 4 ≤ w then some .WARN
      else if 3 / 20 ≤ w then some .INFO
      else none
    else none
  | _, _ => none

/-- One `subnet_metric_snapshots` row, restricted to the columns the signal
logic reads (`price`, `taoVolume24h` and the `priceChange*` columns are
fetched but unused). -/
structure MetricRow where
  flow24h : Option ℚ
  emissionPct : Option ℚ
  liquidity : Option ℚ
deriving DecidableEq

/-- One held subnet position of the latest snapshot (columns read by the
signal logic). -/
structure Position where
  netuid : ℕ
  valueUsd : Option ℚ
deriving DecidableEq

/-- The data environment of one signals request: everything the route reads
from the database, already parsed.  `day` is the UTC day key of the latest
portfolio snapshot and `prevDay` the day before it; `hist30` is the up-to-30
newest metric rows strictly before `day`, newest first; `streakFlow` is the
`flow24h` column of the up-to-10 newest rows at or before `day`, newest
first; `prevValueUsd` is the lookup into the prior-day position map (outer
`none` = key absent). -/
structure SigEnv where
  day : String
  prevDay : String
  metricRow : ℕ → String → Option MetricRow
  hist30 : ℕ → List MetricRow
  streakFlow : ℕ → List (Option ℚ)
  positions : List Position
  prevValueUsd : ℕ → Option (Option ℚ)
  portfolioTotalUsd : Option ℚ

/-- The id builder `mkId`: deterministic signal id `day:netuid:type` (every signal the route
emits carries a netuid, so the `"portfolio"` branch of the source is dead
code). -/
def mkId (day : String) (netuid : ℕ) (t : SigType) : String :=
  day ++ ":" ++ Nat.repr netuid ++ ":" ++ t.typeName

/-- An emitted signal (the presentation fields `title`, `why` and `metrics`
are omitted). -/
structure Signal where
  id : String
  day : String
  netuid : ℕ
  severity : Severity
  type : SigType
deriving DecidableEq

def mkSig (day : String) (netuid : ℕ) (t : SigType) (sev : Severity) : Signal :=
  ⟨mkId day netuid t, day, netuid, sev, t⟩

def missingRowMsg (day : String) (netuid : ℕ) : String :=
  "subnet_metric_snapshots missing for day=" ++ day ++ ", netuid=" ++ Nat.repr netuid

def flowMissingMsg (day : String) (netuid : ℕ) : String :=
  "flow_24h missing (day=" ++ day ++ ", netuid=" ++ Nat.repr netuid ++ ")"

def liqMissingMsg (day : String) (netuid : ℕ) : String :=
  "liquidity missing (day=" ++ day ++ ", netuid=" ++ Nat.repr netuid ++ ")"

def portfolioTotalMsg : String := "portfolio totalValueUsd (for concentration risk)"

/-- Evaluation of all six signal blocks for one held subnet, producing the
emitted signals and the `missing` entries recorded for it.  A missing metric
row for the latest day records a message and skips the whole subnet (the
source's `continue`). -/
def evalSubnet (env : SigEnv) (n : ℕ) : List Signal × List String :=
  match env.metricRow n env.day with
  | none => ([], [missingRowMsg env.day n])
  | some today =>
    let yesterday := env.metricRow n env.prevDay
    let flowHist := ((env.hist30 n).map MetricRow.flow24h).reduceOption
    let emisHist := ((env.hist30 n).map MetricRow.emissionPct).reduceOption
    let liqHist := ((env.hist30 n).map MetricRow.liquidity).reduceOption
    let todayValueUsd :=
      (env.positions.find? (fun p => p.netuid == n)).bind Position.valueUsd
    let o1 := today.flow24h.bind
      (fun ft => flowSpikeSeverity ft flowHist (yesterday.bind MetricRow.flow24h))
    let o2 := today.flow24h.bind (fun _ => streakSev (streakLen (env.streakFlow n)))
    let o3 := today.emissionPct.bind
      (fun et => emissionSeverity et emisHist (yesterday.bind MetricRow.emissionPct))
    let o4 := today.liquidity.bind
      (fun lt => liquiditySeverity lt liqHist (yesterday.bind MetricRow.liquidity))
    let o5 := pvShockSev todayValueUsd ((env.prevValueUsd n).bind id)
    let o6 := concSev env.portfolioTotalUsd todayValueUsd
    ((o1.map (mkSig env.day n .FLOW_SPIKE)).toList
      ++ (o2.map (mkSig env.day n .NEGATIVE_FLOW_STREAK)).toList
      ++ (o3.map (mkSig env.day n .EMISSION_SHOCK)).toList
      ++ (o4.map (mkSig env.day n .LIQUIDITY_DRAIN)).toList
      ++ (o5.map (mkSig env.day n .POSITION_VALUE_SHOCK)).toList
      ++ (o6.map (mkSig env.day n .CONCENTRATION_RISK)).toList,
     (match today.flow24h with
      | none => [flowMissingMsg env.day n]
      | some _ => [])
      ++ (match today.liquidity with
      | none => [liqMissingMsg env.day n]
      | some _ => []))

/-- The route's signal comparator: severity descending, ties by netuid
ascending. -/
def sigLe (a b : Signal) : Bool :=
  decide (sevRank b.severity < sevRank a.severity
    ∨ (sevRank a.severity = sevRank b.severity ∧ a.netuid ≤ b.netuid))

/-- Insertion step of an insertion sort.  Only the comparator is taken from
the source; the runtime's sorting algorithm is unspecified and only the
resulting order matters. -/
def insertLe {α : Type} (le : α → α → Bool) (a : α) : List α → List α
  | [] => [a]
  | b :: l => if le a b then a :: b :: l else b :: insertLe le a l

/-- Insertion sort by a boolean comparator. -/
def sortLe {α : Type} (le : α → α → Bool) : List α → List α
  | [] => []
  | a :: l => insertLe le a (sortLe le l)

/-- The list `heldNetuids`: the distinct held subnet ids, ascending (`Array.from(new
Set(...))` followed by a numeric sort; only the resulting duplicate-free
sorted list matters). -/
def heldNetuids (env : SigEnv) : List ℕ :=
  sortLe (fun a b => decide (a ≤ b)) (env.positions.map Position.netuid).dedup

/-- The `missing` entry recorded before the subnet loop when the portfolio
total USD is absent or non-positive (concentration risk prerequisite). -/
def preMissing (env : SigEnv) : List String :=
  match env.portfolioTotalUsd with
  | some t => if t ≤ 0 then [portfolioTotalMsg] else []
  | none => [portfolioTotalMsg]

/-- The signals response: emitted signals, deduplicated `missing` list and the
`partial` flag of the `meta` object. -/
structure SigResult where
  signals : List Signal
  missing : List String
  metaPartial : Bool
deriving DecidableEq

/-- The main loop of the signals route, from the point where the latest
snapshot's positions have been loaded: record the portfolio-total missing
entry if the total is absent or non-positive, iterate over the held subnets
concatenating signals and missing entries, sort the signals, and set
`partial` to whether any missing entry was recorded.  The source returns
early with no signals (and `partial: false`) when no subnet positions are
held. -/
def runSignals (env : SigEnv) : SigResult :=
  if heldNetuids env = [] then ⟨[], [], false⟩
  else
    let folded := (heldNetuids env).foldl
      (fun acc n => (acc.1 ++ (evalSubnet env n).1, acc.2 ++ (evalSubnet env n).2))
      (([] : List Signal), preMissing env)
    ⟨sortLe sigLe folded.1, folded.2.dedup, decide (folded.2 ≠ [])⟩

/-- Environment with one held subnet (netuid 5) whose metric row for the
latest day is missing, while the concentration-risk prerequisites (position
value 50, portfolio total 100) are all present. -/
def envNoRow : SigEnv where
  day := "2025-01-02"
  prevDay := "2025-01-01"
  metricRow := fun _ _ => none
  hist30 := fun _ => []
  streakFlow := fun _ => []
  positions := [⟨5, some 50⟩]
  prevValueUsd := fun _ => none
  portfolioTotalUsd := some 100

/-- Environment `envNoRow` with the latest-day metric row present (every metric value
missing inside it): only the row's existence differs. -/
def envWithRow : SigEnv :=
  { envNoRow with
    metricRow := fun n d =>
      if n = 5 ∧ d = "2025-01-02" then some ⟨none, none, none⟩ else none }

/-- Fourteen-point flow history with mean 0 and a large population variance,
used to exhibit the FLOW_SPIKE fallback behaviour. -/
def histC2 : List ℚ := List.replicate 7 (10 ^ 13) ++ List.replicate 7 (-(10 ^ 13))

end Sig

namespace Flow

theorem isFlowLikely_false_of_nonpos (aS aE vS vE ta tv : ℚ) (h : aE - aS ≤ 0) :
    isFlowLikely aS aE vS vE ta tv = false := by
  unfold isFlowLikely
  rw [if_pos (not_lt.mpr h)]

theorem isFlowLikely_true_of_nonpos_start (aS aE vS vE ta tv : ℚ)
    (h1 : aS ≤ 0) (h2 : 0 < aE - aS) : isFlowLikely aS aE vS vE ta tv = true := by
  unfold isFlowLikely
  rw [if_neg (not_not_intro h2), if_pos (not_lt.mpr h1)]

theorem isFlowLikely_pos_char (aS aE vS vE ta tv : ℚ) (h1 : 0 < aS) (h2 : 0 < aE - aS) :
    (isFlowLikely aS aE vS vE ta tv = true ↔
      ta < |aE - aS| / aS ∨ (0 < vS ∧ tv < |vE - vS| / vS)) := by
  unfold isFlowLikely
  rw [if_neg (not_not_intro h2), if_neg (not_not_intro h1)]
  split_ifs with hA hB
  · simp [hA]
  · simp [hB]
  · simp [hA, hB]

end Flow

/-- C3: `isFlowLikely` is a pure function of its arguments that returns false
whenever `alphaEnd - alphaStart ≤ 0`; returns true whenever `alphaStart ≤ 0`
and the delta is positive; otherwise returns true iff
`|delta| / alphaStart > alphaPctThreshold` or `valueTaoStart > 0` and
`|valueDelta| / valueTaoStart > valuePctThreshold`; the default thresholds are
`0.05` and `0.10`. -/
theorem C3_flow_classifier_contract (aS aE vS vE ta tv : ℚ) :
    (aE - aS ≤ 0 → Flow.isFlowLikely aS aE vS vE ta tv = false)
    ∧ (aS ≤ 0 → 0 < aE - aS → Flow.isFlowLikely aS aE vS vE ta tv = true)
    ∧ (0 < aS → 0 < aE - aS →
        (Flow.isFlowLikely aS aE vS vE ta tv = true ↔
          ta < |aE - aS| / aS ∨ (0 < vS ∧ tv < |vE - vS| / vS)))
    ∧ Flow.isFlowLikely aS aE vS vE = Flow.isFlowLikely aS aE vS vE (5 / 100) (10 / 100) :=
  ⟨Flow.isFlowLikely_false_of_nonpos aS aE vS vE ta tv,
   Flow.isFlowLikely_true_of_nonpos_start aS aE vS vE ta tv,
   Flow.isFlowLikely_pos_char aS aE vS vE ta tv, rfl⟩

/-- C3 witness: a positive jump from zero starting alpha is classified as
flow. -/
theorem C3_witness : Flow.isFlowLikely 0 5 0 0 (5 / 100) (10 / 100) = true :=
  (C3_flow_classifier_contract 0 5 0 0 (5 / 100) (10 / 100)).2.1 (by norm_num) (by norm_num)

/-- C9 counterexample: with the default thresholds, `alphaStart = 1` and the
TAO value doubling, a delta of `0.01` — far below the threshold
`0.05 · alphaStart` — is already classified as flow via the secondary
TAO-value check.  The result therefore does not flip from false to true as the
delta passes the threshold: it is already true below it. -/
theorem C9_counterexample :
    Flow.isFlowLikely 1 (101 / 100) 1 2 = true ∧ ((101 : ℚ) / 100 - 1 ≤ 5 / 100 * 1) := by
  constructor
  · rw [Flow.isFlowLikely_pos_char 1 (101 / 100) 1 2 (5 / 100) (10 / 100)
      (by norm_num) (by norm_num)]
    refine Or.inr ⟨one_pos, ?_⟩
    rw [show |(2 : ℚ) - 1| = 1 by rw [abs_of_pos] <;> norm_num]
    norm_num
  · norm_num

/-- C9 (amended): for fixed `alphaStart > 0` and the other inputs fixed, the
classifier is monotone in the positive delta (once true it never flips back as
the delta grows); every delta strictly above `alphaPctThreshold · alphaStart`
yields true; and a delta at or below the threshold yields false provided the
secondary TAO-value check does not fire. -/
theorem C9_flow_monotone (aS vS vE ta tv d d2 : ℚ)
    (haS : 0 < aS) (hd : 0 < d) (hdd : d ≤ d2) :
    (Flow.isFlowLikely aS (aS + d) vS vE ta tv = true →
      Flow.isFlowLikely aS (aS + d2) vS vE ta tv = true)
    ∧ (ta * aS < d → Flow.isFlowLikely aS (aS + d) vS vE ta tv = true)
    ∧ (d ≤ ta * aS → ¬ (0 < vS ∧ tv < |vE - vS| / vS) →
        Flow.isFlowLikely aS (aS + d) vS vE ta tv = false) := by
  have hd2 : 0 < d2 := lt_of_lt_of_le hd hdd
  have e1 : aS + d - aS = d := by ring
  have e2 : aS + d2 - aS = d2 := by ring
  have c1 := Flow.isFlowLikely_pos_char aS (aS + d) vS vE ta tv haS (by linarith)
  have c2 := Flow.isFlowLikely_pos_char aS (aS + d2) vS vE ta tv haS (by linarith)
  rw [e1, abs_of_pos hd] at c1
  rw [e2, abs_of_pos hd2] at c2
  refine ⟨?_, ?_, ?_⟩
  · intro h
    rcases c1.mp h with h | h
    · exact c2.mpr (Or.inl (lt_of_lt_of_le h (by gcongr)))
    · exact c2.mpr (Or.inr h)
  · intro h
    exact c1.mpr (Or.inl ((lt_div_iff₀ haS).mpr h))
  · intro h hV
    have hA : ¬ ta < d / aS := not_lt.mpr ((div_le_iff₀ haS).mpr h)
    have := c1.not
    simp only [Bool.not_eq_true] at this
    exact this.mpr (by tauto)

/-- C9 witness: a delta above the threshold (with the secondary check inert)
is classified as flow. -/
theorem C9_witness : Flow.isFlowLikely 1 (1 + 1 / 10) 0 0 (5 / 100) (10 / 100) = true :=
  (C9_flow_monotone 1 0 0 (5 / 100) (10 / 100) (1 / 10) (1 / 10) (by norm_num) (by norm_num)
    le_rfl).2.1 (by norm_num)

namespace Perf

theorem ddStep_mdd_nonpos (st : DDState) (s : Option ℚ)
    (h : ∀ r, st.mdd = some r → r ≤ 0) :
    ∀ r, (ddStep st s).mdd = some r → r ≤ 0 := by
  rcases st with ⟨pk, m⟩
  intro r hr
  simp only [ddStep] at hr
  set v := num s with hv
  have key : ∀ p : ℚ, v ≤ p → 0 < p → (v / p - 1) * 100 ≤ 0 := by
    intro p hvp hp
    have h1 : v / p ≤ 1 := (div_le_one hp).mpr hvp
    nlinarith
  rcases pk with _ | p0
  · dsimp only at hr
    split_ifs at hr with hp
    · rcases m with _ | m0
      · simp only [DDState.mdd, Option.some.injEq] at hr
        subst hr
        exact key v le_rfl hp
      · simp only [DDState.mdd, Option.some.injEq] at hr
        subst hr
        split_ifs
        · exact key v le_rfl hp
        · exact h m0 rfl
    · exact h r hr
  · dsimp only at hr
    by_cases hlt : p0 < v
    · rw [if_pos hlt] at hr
      split_ifs at hr with hp
      · rcases m with _ | m0
        · simp only [DDState.mdd, Option.some.injEq] at hr
          subst hr
          exact key v le_rfl hp
        · simp only [DDState.mdd, Option.some.injEq] at hr
          subst hr
          split_ifs
          · exact key v le_rfl hp
          · exact h m0 rfl
      · exact h r hr
    · rw [if_neg hlt] at hr
      split_ifs at hr with hp
      · rcases m with _ | m0
        · simp only [DDState.mdd, Option.some.injEq] at hr
          subst hr
          exact key p0 (not_lt.mp hlt) hp
        · simp only [DDState.mdd, Option.some.injEq] at hr
          subst hr
          split_ifs
          · exact key p0 (not_lt.mp hlt) hp
          · exact h m0 rfl
      · exact h r hr

theorem fold_mdd_nonpos (l : List (Option ℚ)) (st : DDState)
    (h : ∀ r, st.mdd = some r → r ≤ 0) :
    ∀ r, (l.foldl ddStep st).mdd = some r → r ≤ 0 := by
  induction l generalizing st with
  | nil => exact h
  | cons s t ih => exact ih (ddStep st s) (ddStep_mdd_nonpos st s h)

theorem ddStep_le_peak (p : ℚ) (m : Option ℚ) (s : Option ℚ) (hpv : p ≤ num s) :
    ddStep ⟨some p, m⟩ s =
      ⟨some (num s),
        if 0 < num s then
          some (match m with
            | none => 0
            | some m0 => if (0 : ℚ) < m0 then (0 : ℚ) else m0)
        else m⟩ := by
  classical
  have hmax : (if p < num s then num s else p) = num s := by
    by_cases hc : p < num s
    · rw [if_pos hc]
    · rw [if_neg hc]
      exact le_antisymm hpv (not_lt.mp hc)
  simp only [ddStep, hmax]
  split_ifs with hv
  · have hdd : (num s / num s - 1) * 100 = 0 := by
      rw [div_self (ne_of_gt hv)]; ring
    rcases m with _ | m0
    · simp [hdd]
    · simp [hdd]
  · rfl

theorem ddStep_le_peak_zero (p : ℚ) (s : Option ℚ) (hpv : p ≤ num s) :
    ddStep ⟨some p, some 0⟩ s = ⟨some (num s), some 0⟩ := by
  rw [ddStep_le_peak p (some 0) s hpv]
  split_ifs with hv
  · norm_num
  · rfl

theorem ddStep_le_peak_none (p : ℚ) (s : Option ℚ) (hpv : p ≤ num s) :
    ddStep ⟨some p, none⟩ s = ⟨some (num s), if 0 < num s then some 0 else none⟩ := by
  rw [ddStep_le_peak p none s hpv]

theorem dd_chain (l : List (Option ℚ)) :
    ∀ p : ℚ, List.Chain' (· ≤ ·) (p :: l.map num) →
    (0 < p → (l.foldl ddStep ⟨some p, some 0⟩).mdd = some 0)
    ∧ (p ≤ 0 → (l.foldl ddStep ⟨some p, none⟩).mdd =
        if ∃ x ∈ l, 0 < num x then some 0 else none) := by
  induction l with
  | nil =>
    intro p _
    constructor
    · intro _; rfl
    · intro _; simp
  | cons s t ih =>
    intro p hch
    simp only [List.map_cons, List.chain'_cons] at hch
    obtain ⟨hpv, hch2⟩ := hch
    have hch3 : List.Chain' (· ≤ ·) (num s :: t.map num) := hch2
    constructor
    · intro hp
      have hv : 0 < num s := lt_of_lt_of_le hp hpv
      rw [List.foldl_cons, ddStep_le_peak_zero p s hpv]
      exact (ih (num s) hch3).1 hv
    · intro hp
      by_cases hv : 0 < num s
      · rw [List.foldl_cons, ddStep_le_peak_none p s hpv, if_pos hv]
        rw [(ih (num s) hch3).1 hv]
        rw [if_pos ⟨s, List.mem_cons_self s t, hv⟩]
      · rw [List.foldl_cons, ddStep_le_peak_none p s hpv, if_neg hv]
        rw [(ih (num s) hch3).2 (not_lt.mp hv)]
        by_cases hex : ∃ x ∈ t, 0 < num x
        · rw [if_pos hex, if_pos (by
            obtain ⟨x, hx, hx0⟩ := hex
            exact ⟨x, List.mem_cons_of_mem s hx, hx0⟩)]
        · rw [if_neg hex, if_neg (by
            rintro ⟨x, hx, hx0⟩
            rcases List.mem_cons.mp hx with rfl | hx
            · exact hv hx0
            · exact hex ⟨x, hx, hx0⟩)]

theorem ddStep_initial (s : Option ℚ) :
    ddStep ⟨none, none⟩ s =
      ⟨some (num s), if 0 < num s then some 0 else none⟩ := by
  simp only [ddStep]
  split_ifs with hv
  · have hdd : (num s / num s - 1) * 100 = 0 := by
      rw [div_self (ne_of_gt hv)]; ring
    simp [hdd]
  · rfl

end Perf

/-- C4: `maxDrawdownPct` is non-positive whenever it is defined, and equals 0
when the parsed `totalValueTao` series is non-decreasing and contains at least
one positive value. -/
theorem C4_drawdown_nonpositive (stored : List (Option ℚ)) :
    (∀ r, Perf.maxDrawdownPct stored = some r → r ≤ 0)
    ∧ ((stored.map Perf.num).Chain' (· ≤ ·) →
        (∃ x ∈ stored, 0 < Perf.num x) → Perf.maxDrawdownPct stored = some 0) := by
  constructor
  · exact Perf.fold_mdd_nonpos stored ⟨none, none⟩ (by intro r hr; cases hr)
  · intro hch hex
    rcases stored with _ | ⟨s, t⟩
    · obtain ⟨x, hx, _⟩ := hex
      cases hx
    · unfold Perf.maxDrawdownPct
      rw [List.foldl_cons, Perf.ddStep_initial s]
      simp only [List.map_cons] at hch
      have hch2 : List.Chain' (· ≤ ·) (Perf.num s :: t.map Perf.num) := hch
      by_cases hv : 0 < Perf.num s
      · rw [if_pos hv]
        exact (Perf.dd_chain t (Perf.num s) hch2).1 hv
      · rw [if_neg hv]
        rw [(Perf.dd_chain t (Perf.num s) hch2).2 (not_lt.mp hv)]
        rw [if_pos (by
          obtain ⟨x, hx, hx0⟩ := hex
          rcases List.mem_cons.mp hx with rfl | hx
          · exact absurd hx0 hv
          · exact ⟨x, hx, hx0⟩)]

/-- C4 witness: a non-decreasing two-point series with positive values has
zero max drawdown. -/
theorem C4_witness : Perf.maxDrawdownPct [some 1, some 2] = some 0 :=
  (C4_drawdown_nonpositive [some 1, some 2]).2
    (by simp [Perf.num, List.chain'_cons])
    ⟨some 1, by simp, by norm_num [Perf.num]⟩

namespace Perf

theorem ddStep_peak (st : DDState) (s : Option ℚ) :
    (ddStep st s).peak = some (match st.peak with
      | none => num s
      | some p0 => if p0 < num s then num s else p0) := by
  rcases st with ⟨pk, m⟩
  rcases pk with _ | p0 <;> rcases m with _ | m0 <;>
    simp only [ddStep] <;> split_ifs <;> rfl

theorem ddStep_peak_ge_v (st : DDState) (s : Option ℚ) :
    ∃ p, (ddStep st s).peak = some p ∧ num s ≤ p := by
  rw [ddStep_peak]
  refine ⟨_, rfl, ?_⟩
  cases hpk : st.peak with
  | none => exact le_rfl
  | some p0 =>
    dsimp only
    split_ifs with h
    · exact le_rfl
    · exact le_of_not_lt h

theorem ddStep_peak_ge_old (st : DDState) (s : Option ℚ) (q : ℚ)
    (hq : st.peak = some q) :
    ∃ p, (ddStep st s).peak = some p ∧ q ≤ p := by
  rw [ddStep_peak, hq]
  dsimp only
  split_ifs with h
  · exact ⟨_, rfl, le_of_lt h⟩
  · exact ⟨_, rfl, le_rfl⟩

theorem fold_peak_mono (l : List (Option ℚ)) :
    ∀ st q, st.peak = some q → ∃ p, (l.foldl ddStep st).peak = some p ∧ q ≤ p := by
  induction l with
  | nil => exact fun st q hq => ⟨q, hq, le_rfl⟩
  | cons s t ih =>
    intro st q hq
    obtain ⟨p1, hp1, hqp1⟩ := ddStep_peak_ge_old st s q hq
    obtain ⟨p2, hp2, h12⟩ := ih (ddStep st s) p1 hp1
    exact ⟨p2, by rw [List.foldl_cons]; exact hp2, le_trans hqp1 h12⟩

theorem fold_peak_ge_mem (l : List (Option ℚ)) :
    ∀ st x, x ∈ l → ∃ p, (l.foldl ddStep st).peak = some p ∧ num x ≤ p := by
  induction l with
  | nil => intro st x hx; cases hx
  | cons s t ih =>
    intro st x hx
    rcases List.mem_cons.mp hx with rfl | hx
    · obtain ⟨p1, hp1, hv1⟩ := ddStep_peak_ge_v st x
      obtain ⟨p2, hp2, h12⟩ := fold_peak_mono t (ddStep st x) p1 hp1
      exact ⟨p2, by rw [List.foldl_cons]; exact hp2, le_trans hv1 h12⟩
    · obtain ⟨p2, hp2, h2⟩ := ih (ddStep st s) x hx
      exact ⟨p2, by rw [List.foldl_cons]; exact hp2, h2⟩

theorem ddStep_none_neg100 (st : DDState) (p : ℚ)
    (hpk : st.peak = some p) (hp : 0 < p) :
    ∃ r, (ddStep st none).mdd = some r ∧ r ≤ -100 := by
  rcases st with ⟨pk, m⟩
  simp only at hpk
  subst hpk
  have hv : num (none : Option ℚ) = 0 := rfl
  simp only [ddStep, hv]
  rw [if_neg (not_lt.mpr (le_of_lt hp)), if_pos hp]
  have hdd : ((0 : ℚ) / p - 1) * 100 = -100 := by
    rw [zero_div]; ring
  rcases m with _ | m0
  · exact ⟨-100, by rw [hdd], le_rfl⟩
  · dsimp only
    rw [hdd]
    by_cases h : (-100 : ℚ) < m0
    · exact ⟨-100, by rw [if_pos h], le_rfl⟩
    · exact ⟨m0, by rw [if_neg h], not_lt.mp h⟩

end Perf

/-- C8 counterexample: a stored value that parses non-finite is coerced to 0
by `num`, so after a positive peak it contributes a −100% drawdown point
rather than being skipped; the claim as stated predicts `some 0` for the
two-point series (only the finite first point contributing a zero drawdown,
as in the one-point series shown alongside). -/
theorem C8_counterexample :
    Perf.maxDrawdownPct [some 5, none] = some (-100)
    ∧ Perf.maxDrawdownPct [some 5] = some 0 := by
  constructor
  · norm_num [Perf.maxDrawdownPct, Perf.ddStep, Perf.num, List.foldl_cons, List.foldl_nil]
  · norm_num [Perf.maxDrawdownPct, Perf.ddStep, Perf.num, List.foldl_cons, List.foldl_nil]

/-- C8 (amended): a snapshot whose stored `totalValueTao` parses non-finite is
coerced to 0 at parsing and thereafter handled as an ordinary 0-valued point:
the whole pass behaves exactly as if `some 0` had been stored, so the point
never replaces a positive running peak, but once some earlier point parsed to
a positive value it contributes a drawdown point of −100% (or worse values
already present). -/
theorem C8_nonfinite_zero_coercion :
    (∀ stored : List (Option ℚ),
      Perf.maxDrawdownPct stored
        = Perf.maxDrawdownPct (stored.map (fun s => some (Perf.num s))))
    ∧ (∀ pre : List (Option ℚ), (∃ x ∈ pre, 0 < Perf.num x) →
        ∃ r, Perf.maxDrawdownPct (pre ++ [none]) = some r ∧ r ≤ -100) := by
  constructor
  · intro stored
    unfold Perf.maxDrawdownPct
    rw [List.foldl_map]
    congr 1
  · intro pre hex
    obtain ⟨x, hx, hx0⟩ := hex
    obtain ⟨p, hpk, hxp⟩ := Perf.fold_peak_ge_mem pre ⟨none, none⟩ x hx
    have hp : 0 < p := lt_of_lt_of_le hx0 hxp
    unfold Perf.maxDrawdownPct
    rw [List.foldl_append, List.foldl_cons, List.foldl_nil]
    exact Perf.ddStep_none_neg100 _ p hpk hp

/-- C8 witness: a series with one positive finite point followed by a
non-finite point yields a defined max drawdown at or below −100%. -/
theorem C8_witness :
    ∃ r, Perf.maxDrawdownPct ([some 5] ++ [none]) = some r ∧ r ≤ -100 :=
  C8_nonfinite_zero_coercion.2 [some 5] ⟨some 5, by simp, by norm_num [Perf.num]⟩

namespace Perf

variable {K : Type} [DecidableEq K]

theorem foldl_acc (f : Accum K → K → ℚ) (g : SnapPos K × SnapPos K → K → ℚ)
    (hstep : ∀ (A : Accum K) (p : SnapPos K × SnapPos K) (k : K),
      f (stepInterval A p) k = f A k + g p k) :
    ∀ (l : List (SnapPos K × SnapPos K)) (A : Accum K) (k : K),
      f (l.foldl stepInterval A) k = f A k + (l.map (fun p => g p k)).sum := by
  intro l
  induction l with
  | nil => intro A k; simp
  | cons p t ih =>
    intro A k
    rw [List.foldl_cons, ih, hstep, List.map_cons, List.sum_cons, add_assoc]

theorem list_sum_map_add {α : Type} (l : List α) (f g : α → ℚ) :
    (l.map (fun x => f x + g x)).sum = (l.map f).sum + (l.map g).sum := by
  induction l with
  | nil => simp
  | cons a t ih =>
    simp only [List.map_cons, List.sum_cons, ih]
    ring

theorem flowAt_pos_earned (m0 m1 : SnapPos K) (k : K) (h : flowAt m0 m1 k = true) :
    earnedAt m0 m1 k ≠ 0 := by
  intro he
  unfold earnedAt at he
  unfold flowAt at h
  rw [Flow.isFlowLikely_false_of_nonpos _ _ _ _ _ _ (le_of_eq he)] at h
  exact Bool.false_ne_true h

theorem earned_contrib_split (p : SnapPos K × SnapPos K) (k : K) :
    (if earnedAt p.1 p.2 k ≠ 0 then earnedAt p.1 p.2 k else 0)
      = (if earnedAt p.1 p.2 k ≠ 0 ∧ flowAt p.1 p.2 k = false then earnedAt p.1 p.2 k else 0)
        + (if flowAt p.1 p.2 k = true then earnedAt p.1 p.2 k else 0) := by
  by_cases hf : flowAt p.1 p.2 k = true
  · have he := flowAt_pos_earned p.1 p.2 k hf
    rw [if_pos he, if_pos hf, if_neg (by simp [hf])]
    ring
  · have hf2 : flowAt p.1 p.2 k = false := by simpa using hf
    by_cases he : earnedAt p.1 p.2 k ≠ 0
    · rw [if_pos he, if_pos ⟨he, hf2⟩, if_neg hf]
      ring
    · rw [if_neg he, if_neg (by tauto), if_neg hf]
      ring

theorem tao_contrib_split (p : SnapPos K × SnapPos K) (k : K) :
    (if earnedAt p.1 p.2 k ≠ 0 then taoImpactAt p.1 p.2 k else 0)
      = (if earnedAt p.1 p.2 k ≠ 0 ∧ flowAt p.1 p.2 k = false then taoImpactAt p.1 p.2 k else 0)
        + (if flowAt p.1 p.2 k = true then taoImpactAt p.1 p.2 k else 0) := by
  by_cases hf : flowAt p.1 p.2 k = true
  · have he := flowAt_pos_earned p.1 p.2 k hf
    rw [if_pos he, if_pos hf, if_neg (by simp [hf])]
    ring
  · have hf2 : flowAt p.1 p.2 k = false := by simpa using hf
    by_cases he : earnedAt p.1 p.2 k ≠ 0
    · rw [if_pos he, if_pos ⟨he, hf2⟩, if_neg hf]
      ring
    · rw [if_neg he, if_neg (by tauto), if_neg hf]
      ring

theorem step_alphaNet (A : Accum K) (p : SnapPos K × SnapPos K) (k : K) :
    (stepInterval A p).alphaNet k
      = A.alphaNet k + (if earnedAt p.1 p.2 k ≠ 0 then earnedAt p.1 p.2 k else 0) := by
  simp only [stepInterval]
  split_ifs <;> ring

theorem step_taoNet (A : Accum K) (p : SnapPos K × SnapPos K) (k : K) :
    (stepInterval A p).taoNet k
      = A.taoNet k + (if earnedAt p.1 p.2 k ≠ 0 then taoImpactAt p.1 p.2 k else 0) := by
  simp only [stepInterval]
  split_ifs <;> ring

theorem step_alphaStaking (A : Accum K) (p : SnapPos K × SnapPos K) (k : K) :
    (stepInterval A p).alphaStaking k
      = A.alphaStaking k
        + (if earnedAt p.1 p.2 k ≠ 0 ∧ flowAt p.1 p.2 k = false
            then earnedAt p.1 p.2 k else 0) := by
  simp only [stepInterval]
  split_ifs <;> ring

theorem step_taoStaking (A : Accum K) (p : SnapPos K × SnapPos K) (k : K) :
    (stepInterval A p).taoStaking k
      = A.taoStaking k
        + (if earnedAt p.1 p.2 k ≠ 0 ∧ flowAt p.1 p.2 k = false
            then taoImpactAt p.1 p.2 k else 0) := by
  simp only [stepInterval]
  split_ifs <;> ring

theorem earned_zero_of_not_present (p : SnapPos K × SnapPos K) (k : K)
    (h1 : k ∉ p.1.present) (h2 : k ∉ p.2.present) : earnedAt p.1 p.2 k = 0 := by
  unfold earnedAt alphaAt SnapPos.get
  rw [if_neg h1, if_neg h2]
  simp

theorem step_netKeys_zero (A : Accum K) (p : SnapPos K × SnapPos K) (k : K)
    (h : k ∉ A.netKeys → A.alphaNet k = 0 ∧ A.taoNet k = 0) :
    k ∉ (stepInterval A p).netKeys →
      (stepInterval A p).alphaNet k = 0 ∧ (stepInterval A p).taoNet k = 0 := by
  intro hk
  simp only [stepInterval, Finset.mem_union, Finset.mem_filter, not_or, not_and] at hk
  obtain ⟨hk1, hk2⟩ := hk
  have he : earnedAt p.1 p.2 k = 0 := by
    by_cases hmem : k ∈ p.1.present ∨ k ∈ p.2.present
    · exact not_not.mp (hk2 hmem)
    · rw [not_or] at hmem
      exact earned_zero_of_not_present p k hmem.1 hmem.2
  simp only [stepInterval]
  rw [if_neg (not_not_intro he), if_neg (not_not_intro he)]
  exact h hk1

theorem step_stakingKeys_zero (A : Accum K) (p : SnapPos K × SnapPos K) (k : K)
    (h : k ∉ A.stakingKeys → A.alphaStaking k = 0 ∧ A.taoStaking k = 0) :
    k ∉ (stepInterval A p).stakingKeys →
      (stepInterval A p).alphaStaking k = 0 ∧ (stepInterval A p).taoStaking k = 0 := by
  intro hk
  simp only [stepInterval, Finset.mem_union, Finset.mem_filter, not_or, not_and] at hk
  obtain ⟨hk1, hk2⟩ := hk
  have hcond : ¬ (earnedAt p.1 p.2 k ≠ 0 ∧ flowAt p.1 p.2 k = false) := by
    by_cases hmem : k ∈ p.1.present ∨ k ∈ p.2.present
    · exact not_and.mpr (hk2 hmem)
    · rw [not_or] at hmem
      have := earned_zero_of_not_present p k hmem.1 hmem.2
      tauto
  simp only [stepInterval]
  rw [if_neg hcond, if_neg hcond]
  exact h hk1

theorem fold_netKeys_zero (l : List (SnapPos K × SnapPos K)) :
    ∀ (A : Accum K) (k : K), (k ∉ A.netKeys → A.alphaNet k = 0 ∧ A.taoNet k = 0) →
      k ∉ (l.foldl stepInterval A).netKeys →
        (l.foldl stepInterval A).alphaNet k = 0 ∧ (l.foldl stepInterval A).taoNet k = 0 := by
  induction l with
  | nil => exact fun A k h hk => h hk
  | cons p t ih =>
    intro A k h hk
    rw [List.foldl_cons] at hk ⊢
    exact ih (stepInterval A p) k (step_netKeys_zero A p k h) hk

theorem fold_stakingKeys_zero (l : List (SnapPos K × SnapPos K)) :
    ∀ (A : Accum K) (k : K),
      (k ∉ A.stakingKeys → A.alphaStaking k = 0 ∧ A.taoStaking k = 0) →
      k ∉ (l.foldl stepInterval A).stakingKeys →
        (l.foldl stepInterval A).alphaStaking k = 0
        ∧ (l.foldl stepInterval A).taoStaking k = 0 := by
  induction l with
  | nil => exact fun A k h hk => h hk
  | cons p t ih =>
    intro A k h hk
    rw [List.foldl_cons] at hk ⊢
    exact ih (stepInterval A p) k (step_stakingKeys_zero A p k h) hk

end Perf

/-- C1: for every selected snapshot list and every position identity, the net
accumulated alpha delta equals the staking-estimated accumulated alpha delta
plus the sum of the earned deltas over exactly the interval pairs the Flow
Classifier flagged as flow for that identity; the same decomposition holds for
the `taoImpact` accumulators. -/
theorem C1_net_staking_decomposition {K : Type} [DecidableEq K]
    (snaps : List (Perf.SnapPos K)) (k : K) :
    (Perf.runAttribution snaps).alphaNet k
        = (Perf.runAttribution snaps).alphaStaking k + Perf.flowEarnedSum snaps k
    ∧ (Perf.runAttribution snaps).taoNet k
        = (Perf.runAttribution snaps).taoStaking k + Perf.flowTaoSum snaps k := by
  have hN := Perf.foldl_acc (fun A => A.alphaNet)
    (fun p k => if Perf.earnedAt p.1 p.2 k ≠ 0 then Perf.earnedAt p.1 p.2 k else 0)
    Perf.step_alphaNet (Perf.intervals snaps) Perf.Accum.init k
  have hS := Perf.foldl_acc (fun A => A.alphaStaking)
    (fun p k => if Perf.earnedAt p.1 p.2 k ≠ 0 ∧ Perf.flowAt p.1 p.2 k = false
      then Perf.earnedAt p.1 p.2 k else 0)
    Perf.step_alphaStaking (Perf.intervals snaps) Perf.Accum.init k
  have hTN := Perf.foldl_acc (fun A => A.taoNet)
    (fun p k => if Perf.earnedAt p.1 p.2 k ≠ 0 then Perf.taoImpactAt p.1 p.2 k else 0)
    Perf.step_taoNet (Perf.intervals snaps) Perf.Accum.init k
  have hTS := Perf.foldl_acc (fun A => A.taoStaking)
    (fun p k => if Perf.earnedAt p.1 p.2 k ≠ 0 ∧ Perf.flowAt p.1 p.2 k = false
      then Perf.taoImpactAt p.1 p.2 k else 0)
    Perf.step_taoStaking (Perf.intervals snaps) Perf.Accum.init k
  constructor
  · unfold Perf.runAttribution Perf.flowEarnedSum
    rw [hN, hS]
    simp only [Perf.Accum.init, zero_add]
    rw [show (fun p : Perf.SnapPos K × Perf.SnapPos K =>
          if Perf.earnedAt p.1 p.2 k ≠ 0 then Perf.earnedAt p.1 p.2 k else 0)
        = fun p =>
          (if Perf.earnedAt p.1 p.2 k ≠ 0 ∧ Perf.flowAt p.1 p.2 k = false
            then Perf.earnedAt p.1 p.2 k else 0)
          + (if Perf.flowAt p.1 p.2 k = true then Perf.earnedAt p.1 p.2 k else 0)
      from funext fun p => Perf.earned_contrib_split p k]
    exact Perf.list_sum_map_add _ _ _
  · unfold Perf.runAttribution Perf.flowTaoSum
    rw [hTN, hTS]
    simp only [Perf.Accum.init, zero_add]
    rw [show (fun p : Perf.SnapPos K × Perf.SnapPos K =>
          if Perf.earnedAt p.1 p.2 k ≠ 0 then Perf.taoImpactAt p.1 p.2 k else 0)
        = fun p =>
          (if Perf.earnedAt p.1 p.2 k ≠ 0 ∧ Perf.flowAt p.1 p.2 k = false
            then Perf.taoImpactAt p.1 p.2 k else 0)
          + (if Perf.flowAt p.1 p.2 k = true then Perf.taoImpactAt p.1 p.2 k else 0)
      from funext fun p => Perf.tao_contrib_split p k]
    exact Perf.list_sum_map_add _ _ _

/-- C6: when the total `taoImpact` over all contributors is positive, the
share percentages over all contributor keys sum to exactly 100, separately for
the net and staking views; when the total is non-positive, every contributor's
share in that view is 0. -/
theorem C6_share_percentages {K : Type} [DecidableEq K]
    (snaps : List (Perf.SnapPos K)) :
    (0 < Perf.totalImpactNet (Perf.runAttribution snaps) →
      ∑ k ∈ Perf.allKeys (Perf.runAttribution snaps),
        Perf.sharePctNet (Perf.runAttribution snaps) k = 100)
    ∧ (Perf.totalImpactNet (Perf.runAttribution snaps) ≤ 0 →
      ∀ k, Perf.sharePctNet (Perf.runAttribution snaps) k = 0)
    ∧ (0 < Perf.totalImpactStaking (Perf.runAttribution snaps) →
      ∑ k ∈ Perf.allKeys (Perf.runAttribution snaps),
        Perf.sharePctStaking (Perf.runAttribution snaps) k = 100)
    ∧ (Perf.totalImpactStaking (Perf.runAttribution snaps) ≤ 0 →
      ∀ k, Perf.sharePctStaking (Perf.runAttribution snaps) k = 0) := by
  have hZ : ∀ k, k ∉ (Perf.runAttribution snaps).netKeys →
      (Perf.runAttribution snaps).alphaNet k = 0
      ∧ (Perf.runAttribution snaps).taoNet k = 0 := by
    intro k hk
    exact Perf.fold_netKeys_zero (Perf.intervals snaps) Perf.Accum.init k
      (fun _ => ⟨rfl, rfl⟩) hk
  have hZS : ∀ k, k ∉ (Perf.runAttribution snaps).stakingKeys →
      (Perf.runAttribution snaps).alphaStaking k = 0
      ∧ (Perf.runAttribution snaps).taoStaking k = 0 := by
    intro k hk
    exact Perf.fold_stakingKeys_zero (Perf.intervals snaps) Perf.Accum.init k
      (fun _ => ⟨rfl, rfl⟩) hk
  have hsumN : Perf.totalImpactNet (Perf.runAttribution snaps)
      = ∑ k ∈ Perf.allKeys (Perf.runAttribution snaps),
          (Perf.runAttribution snaps).taoNet k :=
    Finset.sum_subset Finset.subset_union_left (fun x _ hx => (hZ x hx).2)
  have hsumS : Perf.totalImpactStaking (Perf.runAttribution snaps)
      = ∑ k ∈ Perf.allKeys (Perf.runAttribution snaps),
          (Perf.runAttribution snaps).taoStaking k :=
    Finset.sum_subset Finset.subset_union_right (fun x _ hx => (hZS x hx).2)
  refine ⟨?_, ?_, ?_, ?_⟩
  · intro hT
    unfold Perf.sharePctNet
    simp only [if_pos hT]
    simp only [div_mul_eq_mul_div]
    rw [← Finset.sum_div, ← Finset.sum_mul, ← hsumN, mul_comm, mul_div_assoc,
      div_self (ne_of_gt hT), mul_one]
  · intro hT k
    unfold Perf.sharePctNet
    rw [if_neg (not_lt.mpr hT)]
  · intro hT
    unfold Perf.sharePctStaking
    simp only [if_pos hT]
    simp only [div_mul_eq_mul_div]
    rw [← Finset.sum_div, ← Finset.sum_mul, ← hsumS, mul_comm, mul_div_assoc,
      div_self (ne_of_gt hT), mul_one]
  · intro hT k
    unfold Perf.sharePctStaking
    rw [if_neg (not_lt.mpr hT)]

/-- C6 witness: for the concrete two-snapshot example, the net shares sum to
100 (total impact 7 > 0) and the staking share is 0 (the single interval is
flow-flagged, so the staking total is 0). -/
theorem C6_witness :
    (∑ k ∈ Perf.allKeys (Perf.runAttribution Perf.exFlowSnaps),
        Perf.sharePctNet (Perf.runAttribution Perf.exFlowSnaps) k = 100)
    ∧ Perf.sharePctStaking (Perf.runAttribution Perf.exFlowSnaps) 1 = 0 :=
  ⟨(C6_share_percentages Perf.exFlowSnaps).1 (by
      simp [Perf.totalImpactNet, Perf.runAttribution, Perf.intervals, Perf.exFlowSnaps,
        Perf.stepInterval, Perf.Accum.init, Perf.earnedAt, Perf.alphaAt, Perf.taoImpactAt,
        Perf.endPriceAt, Perf.valueTaoAt, Perf.SnapPos.get, Perf.priceTao, Perf.flowAt,
        Flow.isFlowLikely, Finset.filter_singleton]),
   (C6_share_percentages Perf.exFlowSnaps).2.2.2 (by
      simp [Perf.totalImpactStaking, Perf.runAttribution, Perf.intervals, Perf.exFlowSnaps,
        Perf.stepInterval, Perf.Accum.init, Perf.earnedAt, Perf.alphaAt, Perf.taoImpactAt,
        Perf.endPriceAt, Perf.valueTaoAt, Perf.SnapPos.get, Perf.priceTao, Perf.flowAt,
        Flow.isFlowLikely, Finset.filter_singleton]
      norm_num) 1⟩

namespace Port

theorem findPointAtOrBefore_none (series : List SeriesPoint) (cutoff : ℚ)
    (h : ∀ p ∈ series, ∀ tp, p.t = some tp → cutoff < tp) :
    findPointAtOrBefore series cutoff = none := by
  unfold findPointAtOrBefore
  rw [List.find?_eq_none]
  intro p hp
  rcases hpt : p.t with _ | tp
  · simp [hpt]
  · simp only [hpt, decide_eq_true_eq]
    exact not_le.mpr (h p (List.mem_reverse.mp hp) tp hpt)

end Port

/-- C5: for a position's series and window length d ∈ {1, 7, 30}: when no
series point has a (parseable) timestamp at or before the end timestamp minus
d days, the APY field is the explicit unavailable marker, the empty string;
when the window's start point exists with positive starting value `sv` and the
series' end value is `ev`, the field is `((1 + (ev-sv)/sv)^(365/d) - 1) * 100`
formatted to two decimals, with the power supplied by the runtime's `Math.pow`
(the parameter `powf`). -/
theorem C5_apy_window (powf : ℚ → ℚ → ℚ) (series : List Port.SeriesPoint)
    (endMs d : ℚ) (hd : d = 1 ∨ d = 7 ∨ d = 30) :
    ((∀ p ∈ series, ∀ tp, p.t = some tp → endMs - d * 86400000 < tp) →
      Port.apyField powf series endMs d = "")
    ∧ (∀ p sv ev, Port.findPointAtOrBefore series (endMs - d * 86400000) = some p →
        p.valueTao = some sv → 0 < sv →
        (series.getLast?).bind Port.SeriesPoint.valueTao = some ev →
        Port.apyField powf series endMs d
          = Port.fmtPct ((powf (1 + (ev - sv) / sv) (365 / d) - 1) * 100)) := by
  constructor
  · intro h
    unfold Port.apyField
    rw [Port.findPointAtOrBefore_none series _ h]
    rcases (series.getLast?).bind Port.SeriesPoint.valueTao with _ | ev <;> rfl
  · intro p sv ev hfind hsv hpos hend
    have hd0 : 0 < d := by rcases hd with rfl | rfl | rfl <;> norm_num
    unfold Port.apyField
    rw [hfind, hend]
    rw [show (some p).bind Port.SeriesPoint.valueTao = some sv from hsv]
    show Port.computeApyFromSnapshots powf sv ev d = _
    unfold Port.computeApyFromSnapshots
    rw [if_neg (by push_neg; exact ⟨hpos, hd0⟩)]

/-- C5 witness: a two-point series 8 days apart, 7-day window: the start point
is found and the field is the formatted annualised value (with a concrete
stand-in for `Math.pow`). -/
theorem C5_witness :
    Port.apyField (fun a b => a * b)
        [⟨some 0, some 10⟩, ⟨some 691200000, some 11⟩] 691200000 7
      = Port.fmtPct (((1 + ((11 : ℚ) - 10) / 10) * (365 / 7) - 1) * 100) :=
  (C5_apy_window (fun a b => a * b) _ 691200000 7 (Or.inr (Or.inl rfl))).2
    ⟨some 0, some 10⟩ 10 11
    (by simp [Port.findPointAtOrBefore]; norm_num)
    rfl (by norm_num) rfl

/-- C2 counterexample: a 14-point history with mean 0 and huge variance makes
rule (1) applicable (so, per the claim, rules (2) and (3) are not consulted
and no signal should be emitted, z being ≈ 0.0002), yet the code still emits
an INFO FLOW_SPIKE because the absolute band of 2e12 is consulted whenever no
earlier band assigned a severity. -/
theorem C2_counterexample :
    Sig.histC2.length = 14
    ∧ Sig.zSevSpec (2 * 10 ^ 12) Sig.histC2 = none
    ∧ Sig.flowSpikeSeverity (2 * 10 ^ 12) Sig.histC2 none = some Sig.Severity.INFO := by
  refine ⟨by simp [Sig.histC2], ?_, ?_⟩
  · norm_num [Sig.zSevSpec, Sig.histC2, List.replicate, abs_of_pos]
  · norm_num [Sig.flowSpikeSeverity, Sig.meanStdSq, Sig.histC2, List.replicate, abs_of_pos]

/-- C2 (amended): FLOW_SPIKE severity is selected as: the z band when at
least 14 finite history points exist, otherwise the day-over-day band when
yesterday's flow exists; and whenever neither band assigned a severity —
including when z or pct was computed but fell below its lowest threshold —
the absolute band (|flow| ≥ 2e12 / 5e12 / 1e13) is consulted; no signal is
emitted only when all consulted bands assign nothing. -/
theorem C2_flow_spike_priority (t : ℚ) (hist : List ℚ) (y : Option ℚ) :
    Sig.flowSpikeSeverity t hist y
      = match (if 14 ≤ hist.length then Sig.zSevSpec t hist else Sig.pctSevSpec t y) with
        | some s => some s
        | none => Sig.absSevSpec t := by
  by_cases h14 : 14 ≤ hist.length
  · have h2 : ¬ hist.length < 2 := by omega
    unfold Sig.flowSpikeSeverity Sig.meanStdSq Sig.zSevSpec
    rw [if_neg h2]
    dsimp only
    rw [if_pos h14]
    rw [if_pos h14]
    rfl
  · unfold Sig.flowSpikeSeverity Sig.meanStdSq Sig.pctSevSpec
    rw [if_neg h14]
    by_cases h2 : hist.length < 2
    · rw [if_pos h2]
      dsimp only
      cases y <;> rfl
    · rw [if_neg h2]
      dsimp only
      rw [if_neg h14]
      cases y <;> rfl

namespace Sig

theorem insertLe_perm {α : Type} (le : α → α → Bool) (a : α) (l : List α) :
    (insertLe le a l).Perm (a :: l) := by
  induction l with
  | nil => exact List.Perm.refl _
  | cons b t ih =>
    unfold insertLe
    split_ifs with h
    · exact List.Perm.refl _
    · exact (ih.cons b).trans (List.Perm.swap a b t)

theorem sortLe_perm {α : Type} (le : α → α → Bool) (l : List α) :
    (sortLe le l).Perm l := by
  induction l with
  | nil => exact List.Perm.refl _
  | cons a t ih => exact (insertLe_perm le a (sortLe le t)).trans (ih.cons a)

theorem foldl_pair_append {α β γ : Type} (f : α → List β × List γ) (l : List α)
    (acc : List β × List γ) :
    l.foldl (fun acc n => (acc.1 ++ (f n).1, acc.2 ++ (f n).2)) acc
      = (acc.1 ++ l.flatMap (fun n => (f n).1), acc.2 ++ l.flatMap (fun n => (f n).2)) := by
  induction l generalizing acc with
  | nil => simp
  | cons a t ih =>
    rw [List.foldl_cons, ih]
    simp [List.flatMap_cons, List.append_assoc]

theorem runSignals_decomp (env : SigEnv) (h : heldNetuids env ≠ []) :
    runSignals env
      = ⟨sortLe sigLe ((heldNetuids env).flatMap (fun n => (evalSubnet env n).1)),
         (preMissing env
           ++ (heldNetuids env).flatMap (fun n => (evalSubnet env n).2)).dedup,
         decide ((preMissing env
           ++ (heldNetuids env).flatMap (fun n => (evalSubnet env n).2)) ≠ [])⟩ := by
  unfold runSignals
  rw [if_neg h]
  dsimp only
  rw [foldl_pair_append (fun n => evalSubnet env n) (heldNetuids env) ([], preMissing env)]
  simp

end Sig

/-- C7 counterexample: with one held subnet (netuid 5), portfolio total 100
and position value 50, a missing latest-day metric row yields no signals at
all (and `partial: true`), although with the row present — its metric values
all missing — the same data produces a CONCENTRATION_RISK signal for that very
subnet.  The missing metric row therefore does prevent evaluation of
CONCENTRATION_RISK for that subnet, contrary to the claim. -/
theorem C7_counterexample :
    (Sig.runSignals Sig.envNoRow).signals = []
    ∧ (Sig.runSignals Sig.envNoRow).metaPartial = true
    ∧ ∃ s ∈ (Sig.runSignals Sig.envWithRow).signals,
        s.type = Sig.SigType.CONCENTRATION_RISK ∧ s.netuid = 5 := by
  refine ⟨?_, ?_, ?_⟩
  · simp [Sig.runSignals, Sig.heldNetuids, Sig.evalSubnet, Sig.envNoRow, Sig.preMissing,
      Sig.sortLe, Sig.insertLe, Sig.missingRowMsg]
  · simp [Sig.runSignals, Sig.heldNetuids, Sig.evalSubnet, Sig.envNoRow, Sig.preMissing,
      Sig.sortLe, Sig.insertLe, Sig.missingRowMsg]
  · refine ⟨Sig.mkSig "2025-01-02" 5 .CONCENTRATION_RISK .CRITICAL, ?_, rfl, rfl⟩
    simp only [Sig.runSignals, Sig.heldNetuids, Sig.evalSubnet, Sig.envWithRow,
      Sig.envNoRow, Sig.preMissing, Sig.concSev, Sig.pvShockSev]
    norm_num [Sig.sortLe, Sig.insertLe, List.dedup]

/-- C7 (amended): the signal engine is fail-soft per subnet, not per
(subnet, signal type) cell: the emitted signals are (a permutation of) the
concatenation of independent per-subnet evaluations, so a missing prerequisite
for one subnet never prevents evaluation of any other subnet; but a missing
latest-day metric row for a held subnet records a missing entry, surfaces as
`partial: true`, and skips ALL six signal types for that subnet, including
POSITION_VALUE_SHOCK and CONCENTRATION_RISK which do not need the row. -/
theorem C7_missing_row_fail_soft (env : Sig.SigEnv)
    (hne : Sig.heldNetuids env ≠ []) :
    ((Sig.runSignals env).signals.Perm
      ((Sig.heldNetuids env).flatMap (fun n => (Sig.evalSubnet env n).1)))
    ∧ (∀ n, env.metricRow n env.day = none →
        Sig.evalSubnet env n = ([], [Sig.missingRowMsg env.day n]))
    ∧ (∀ n, n ∈ Sig.heldNetuids env → env.metricRow n env.day = none →
        (Sig.runSignals env).metaPartial = true
        ∧ Sig.missingRowMsg env.day n ∈ (Sig.runSignals env).missing) := by
  have hskip : ∀ n, env.metricRow n env.day = none →
      Sig.evalSubnet env n = ([], [Sig.missingRowMsg env.day n]) := by
    intro n h
    unfold Sig.evalSubnet
    rw [h]
  refine ⟨?_, hskip, ?_⟩
  · rw [Sig.runSignals_decomp env hne]
    exact Sig.sortLe_perm _ _
  · intro n hn h
    have hmem : Sig.missingRowMsg env.day n
        ∈ Sig.preMissing env
          ++ (Sig.heldNetuids env).flatMap (fun n => (Sig.evalSubnet env n).2) := by
      refine List.mem_append.mpr (Or.inr (List.mem_flatMap.mpr ⟨n, hn, ?_⟩))
      rw [hskip n h]
      exact List.mem_singleton.mpr rfl
    rw [Sig.runSignals_decomp env hne]
    constructor
    · rw [decide_eq_true_eq]
      exact List.ne_nil_of_mem hmem
    · exact List.mem_dedup.mpr hmem

/-- C7 witness: in the concrete missing-row environment, the response is
partial and carries the missing-row entry for netuid 5. -/
theorem C7_witness :
    (Sig.runSignals Sig.envNoRow).metaPartial = true
    ∧ Sig.missingRowMsg "2025-01-02" 5 ∈ (Sig.runSignals Sig.envNoRow).missing :=
  (C7_missing_row_fail_soft Sig.envNoRow
      (by simp [Sig.heldNetuids, Sig.envNoRow, Sig.sortLe, Sig.insertLe])).2.2 5
    (by simp [Sig.heldNetuids, Sig.envNoRow, Sig.sortLe, Sig.insertLe]) rfl

namespace Sig

theorem digitChar_ne_colon (m : ℕ) : Nat.digitChar m ≠ ':' := by
  by_cases h : m < 16
  · interval_cases m <;> decide
  · have hstar : Nat.digitChar m = '*' := by
      unfold Nat.digitChar
      rw [if_neg (show ¬ m = 0 by omega), if_neg (show ¬ m = 1 by omega),
        if_neg (show ¬ m = 2 by omega), if_neg (show ¬ m = 3 by omega),
        if_neg (show ¬ m = 4 by omega), if_neg (show ¬ m = 5 by omega),
        if_neg (show ¬ m = 6 by omega), if_neg (show ¬ m = 7 by omega),
        if_neg (show ¬ m = 8 by omega), if_neg (show ¬ m = 9 by omega),
        if_neg (show ¬ m = 10 by omega), if_neg (show ¬ m = 11 by omega),
        if_neg (show ¬ m = 12 by omega), if_neg (show ¬ m = 13 by omega),
        if_neg (show ¬ m = 14 by omega), if_neg (show ¬ m = 15 by omega)]
    rw [hstar]
    decide

theorem toDigitsCore_ne_colon (fuel : ℕ) :
    ∀ (n : ℕ) (ds : List Char), (∀ c ∈ ds, c ≠ ':') →
      ∀ c ∈ Nat.toDigitsCore 10 fuel n ds, c ≠ ':' := by
  induction fuel with
  | zero =>
    intro n ds h c hc
    exact h c hc
  | succ f ih =>
    intro n ds h c hc
    simp only [Nat.toDigitsCore] at hc
    by_cases h0 : n / 10 = 0
    · rw [if_pos h0] at hc
      rcases List.mem_cons.mp hc with rfl | hc2
      · exact digitChar_ne_colon _
      · exact h c hc2
    · rw [if_neg h0] at hc
      refine ih (n / 10) (Nat.digitChar (n % 10) :: ds) ?_ c hc
      intro c2 hc2
      rcases List.mem_cons.mp hc2 with rfl | hc3
      · exact digitChar_ne_colon _
      · exact h c2 hc3

theorem repr_ne_colon (n : ℕ) : ∀ c ∈ (Nat.repr n).data, c ≠ ':' := by
  intro c hc
  have hd : (Nat.repr n).data = Nat.toDigitsCore 10 (n + 1) n [] := rfl
  rw [hd] at hc
  exact toDigitsCore_ne_colon (n + 1) n [] (by intro c2 h2; cases h2) c hc

theorem toDigitsCore_append (fuel : ℕ) :
    ∀ (n : ℕ) (ds : List Char),
      Nat.toDigitsCore 10 fuel n ds = Nat.toDigitsCore 10 fuel n [] ++ ds := by
  induction fuel with
  | zero => intro n ds; simp [Nat.toDigitsCore]
  | succ f ih =>
    intro n ds
    simp only [Nat.toDigitsCore]
    by_cases h0 : n / 10 = 0
    · rw [if_pos h0, if_pos h0]
      rfl
    · rw [if_neg h0, if_neg h0]
      rw [ih (n / 10) (Nat.digitChar (n % 10) :: ds),
        ih (n / 10) [Nat.digitChar (n % 10)]]
      simp [List.append_assoc]

theorem digitChar_val (m : ℕ) (h : m < 10) : (Nat.digitChar m).toNat - 48 = m := by
  interval_cases m <;> decide

theorem toDigitsCore_val (fuel : ℕ) :
    ∀ n, n < fuel →
      Nat.ofDigits 10 ((Nat.toDigitsCore 10 fuel n []).reverse.map
        (fun c => c.toNat - 48)) = n := by
  induction fuel with
  | zero => intro n h; exact absurd h (Nat.not_lt_zero n)
  | succ f ih =>
    intro n hn
    simp only [Nat.toDigitsCore]
    by_cases h0 : n / 10 = 0
    · rw [if_pos h0]
      have h10 : n < 10 := by omega
      simp only [List.reverse_cons, List.reverse_nil, List.nil_append, List.map_cons,
        List.map_nil]
      rw [Nat.ofDigits_singleton, Nat.mod_eq_of_lt h10, digitChar_val n h10]
    · rw [if_neg h0]
      rw [toDigitsCore_append f (n / 10) [Nat.digitChar (n % 10)]]
      rw [List.reverse_append]
      simp only [List.reverse_cons, List.reverse_nil, List.nil_append,
        List.singleton_append, List.map_cons]
      rw [Nat.ofDigits_cons]
      rw [digitChar_val (n % 10) (Nat.mod_lt n (by norm_num))]
      rw [ih (n / 10) (by omega)]
      omega

theorem nat_repr_injective : Function.Injective Nat.repr := by
  intro a b h
  have ha := toDigitsCore_val (a + 1) a (Nat.lt_succ_self a)
  have hb := toDigitsCore_val (b + 1) b (Nat.lt_succ_self b)
  have hd : Nat.toDigitsCore 10 (a + 1) a [] = Nat.toDigitsCore 10 (b + 1) b [] :=
    congrArg String.data h
  rw [← ha, ← hb, hd]

theorem append_colon_inj (a1 : List Char) :
    ∀ (a2 b1 b2 : List Char), (∀ c ∈ a1, c ≠ ':') → (∀ c ∈ a2, c ≠ ':') →
      a1 ++ ':' :: b1 = a2 ++ ':' :: b2 → a1 = a2 ∧ b1 = b2 := by
  induction a1 with
  | nil =>
    intro a2 b1 b2 h1 h2 heq
    rcases a2 with _ | ⟨c, t⟩
    · simpa using heq
    · simp only [List.nil_append, List.cons_append, List.cons.injEq] at heq
      exact absurd heq.1.symm (h2 c (List.mem_cons_self c t))
  | cons c t ih =>
    intro a2 b1 b2 h1 h2 heq
    rcases a2 with _ | ⟨c2, t2⟩
    · simp only [List.nil_append, List.cons_append, List.cons.injEq] at heq
      exact absurd heq.1 (h1 c (List.mem_cons_self c t))
    · simp only [List.cons_append, List.cons.injEq] at heq
      obtain ⟨hc, heq2⟩ := heq
      obtain ⟨ht, hb⟩ := ih t2 b1 b2
        (fun x hx => h1 x (List.mem_cons_of_mem c hx))
        (fun x hx => h2 x (List.mem_cons_of_mem c2 hx)) heq2
      exact ⟨by rw [hc, ht], hb⟩

theorem typeName_ne_colon (t : SigType) : ∀ c ∈ t.typeName.data, c ≠ ':' := by
  cases t <;> decide

theorem typeName_inj (t1 t2 : SigType) (h : t1.typeName.data = t2.typeName.data) :
    t1 = t2 := by
  cases t1 <;> cases t2 <;> first | rfl | (exfalso; revert h; decide)

theorem mkId_inj (day : String) (n1 n2 : ℕ) (t1 t2 : SigType)
    (h : mkId day n1 t1 = mkId day n2 t2) : n1 = n2 ∧ t1 = t2 := by
  unfold mkId at h
  have hdata := congrArg String.data h
  simp only [String.data_append] at hdata
  simp only [List.append_assoc, List.singleton_append] at hdata
  have h2 := List.append_cancel_left hdata
  have h3 : (Nat.repr n1).data ++ ':' :: (SigType.typeName t1).data
      = (Nat.repr n2).data ++ ':' :: (SigType.typeName t2).data := by
    simpa using h2
  obtain ⟨hr, hn⟩ := append_colon_inj _ _ _ _ (repr_ne_colon n1) (repr_ne_colon n2) h3
  exact ⟨nat_repr_injective (String.ext hr), typeName_inj t1 t2 hn⟩

end Sig

namespace Sig

theorem mem_optSig {o : Option Severity} {d : String} {n : ℕ} {ty : SigType} {s : Signal}
    (h : s ∈ (o.map (mkSig d n ty)).toList) :
    s.netuid = n ∧ s.day = d ∧ s.type = ty ∧ s.id = mkId d n ty := by
  rcases o with _ | sev
  · cases h
  · simp only [Option.map_some', Option.toList_some, List.mem_singleton] at h
    subst h
    exact ⟨rfl, rfl, rfl, rfl⟩

theorem optSig_type_sublist (o : Option Severity) (d : String) (n : ℕ) (ty : SigType) :
    List.Sublist ((o.map (mkSig d n ty)).toList.map Signal.type) [ty] := by
  rcases o with _ | sev
  · exact List.nil_sublist [ty]
  · exact List.Sublist.refl [ty]

theorem evalSubnet_fst_eq (env : SigEnv) (n : ℕ) (today : MetricRow)
    (hrow : env.metricRow n env.day = some today) :
    (evalSubnet env n).1
      = ((today.flow24h.bind (fun ft => flowSpikeSeverity ft
            ((env.hist30 n).map MetricRow.flow24h).reduceOption
            ((env.metricRow n env.prevDay).bind MetricRow.flow24h))).map
          (mkSig env.day n .FLOW_SPIKE)).toList
        ++ ((today.flow24h.bind (fun _ => streakSev (streakLen (env.streakFlow n)))).map
          (mkSig env.day n .NEGATIVE_FLOW_STREAK)).toList
        ++ ((today.emissionPct.bind (fun et => emissionSeverity et
            ((env.hist30 n).map MetricRow.emissionPct).reduceOption
            ((env.metricRow n env.prevDay).bind MetricRow.emissionPct))).map
          (mkSig env.day n .EMISSION_SHOCK)).toList
        ++ ((today.liquidity.bind (fun lt => liquiditySeverity lt
            ((env.hist30 n).map MetricRow.liquidity).reduceOption
            ((env.metricRow n env.prevDay).bind MetricRow.liquidity))).map
          (mkSig env.day n .LIQUIDITY_DRAIN)).toList
        ++ ((pvShockSev
            ((env.positions.find? (fun p => p.netuid == n)).bind Position.valueUsd)
            ((env.prevValueUsd n).bind id)).map
          (mkSig env.day n .POSITION_VALUE_SHOCK)).toList
        ++ ((concSev env.portfolioTotalUsd
            ((env.positions.find? (fun p => p.netuid == n)).bind Position.valueUsd)).map
          (mkSig env.day n .CONCENTRATION_RISK)).toList := by
  unfold evalSubnet
  rw [hrow]

theorem evalSubnet_shape (env : SigEnv) (n : ℕ) :
    (∀ s ∈ (evalSubnet env n).1,
      s.netuid = n ∧ s.day = env.day ∧ s.id = mkId env.day n s.type)
    ∧ ((evalSubnet env n).1.map Signal.type).Nodup := by
  rcases hrow : env.metricRow n env.day with _ | today
  · constructor
    · intro s hs
      unfold evalSubnet at hs
      rw [hrow] at hs
      cases hs
    · unfold evalSubnet
      rw [hrow]
      exact List.nodup_nil
  · rw [evalSubnet_fst_eq env n today hrow]
    constructor
    · intro s hs
      simp only [List.mem_append] at hs
      rcases hs with ((((h | h) | h) | h) | h) | h
      all_goals
      · obtain ⟨h1, h2, h3, h4⟩ := mem_optSig h
        exact ⟨h1, h2, by rw [h3]; exact h4⟩
    · simp only [List.map_append]
      exact List.Nodup.sublist
        (List.Sublist.append
          (List.Sublist.append
            (List.Sublist.append
              (List.Sublist.append
                (List.Sublist.append (optSig_type_sublist _ _ _ _)
                  (optSig_type_sublist _ _ _ _))
                (optSig_type_sublist _ _ _ _))
              (optSig_type_sublist _ _ _ _))
            (optSig_type_sublist _ _ _ _))
          (optSig_type_sublist _ _ _ _))
        (by decide)

end Sig

/-- C10: in every signals response, the (netuid, signal type) pairs of the
emitted signals are pairwise distinct (at most one signal per cell), every
signal carries the environment's day (the UTC day of the latest portfolio
snapshot), and consequently the id strings `day:netuid:type` are pairwise
distinct. -/
theorem C10_signal_ids_unique (env : Sig.SigEnv) :
    ((Sig.runSignals env).signals.map (fun s => (s.netuid, s.type))).Nodup
    ∧ (∀ s ∈ (Sig.runSignals env).signals, s.day = env.day)
    ∧ ((Sig.runSignals env).signals.map Sig.Signal.id).Nodup := by
  by_cases hne : Sig.heldNetuids env = []
  · unfold Sig.runSignals
    rw [if_pos hne]
    exact ⟨List.nodup_nil, fun s hs => absurd hs (List.not_mem_nil s), List.nodup_nil⟩
  · rw [Sig.runSignals_decomp env hne]
    dsimp only
    set L := (Sig.heldNetuids env).flatMap (fun n => (Sig.evalSubnet env n).1) with hL
    have hperm : (Sig.sortLe Sig.sigLe L).Perm L := Sig.sortLe_perm _ _
    have hheld : (Sig.heldNetuids env).Nodup :=
      ((Sig.sortLe_perm _ _).nodup_iff).mpr (List.nodup_dedup _)
    have hmem : ∀ s ∈ L, s.day = env.day ∧ s.id = Sig.mkId env.day s.netuid s.type := by
      intro s hs
      obtain ⟨n, hn, hsn⟩ := List.mem_flatMap.mp hs
      obtain ⟨h1, h2, h3⟩ := (Sig.evalSubnet_shape env n).1 s hsn
      exact ⟨h2, by rw [h1]; exact h3⟩
    have hpairs : (L.map (fun s => (s.netuid, s.type))).Nodup := by
      rw [hL, List.map_flatMap]
      rw [List.nodup_flatMap]
      constructor
      · intro n hn
        have htypes := (Sig.evalSubnet_shape env n).2
        have hsnd : (((Sig.evalSubnet env n).1.map
            (fun s => (s.netuid, s.type))).map Prod.snd).Nodup := by
          rw [List.map_map]
          exact htypes
        exact hsnd.of_map
      · refine List.Pairwise.imp ?_ hheld
        intro n1 n2 hne12 x hx1 hx2
        obtain ⟨s1, hs1, hxe1⟩ := List.mem_map.mp hx1
        obtain ⟨s2, hs2, hxe2⟩ := List.mem_map.mp hx2
        have e1 := ((Sig.evalSubnet_shape env n1).1 s1 hs1).1
        have e2 := ((Sig.evalSubnet_shape env n2).1 s2 hs2).1
        apply hne12
        rw [← e1, ← e2]
        have : s1.netuid = x.1 := by rw [← hxe1]
        rw [this]
        rw [show s2.netuid = x.1 from by rw [← hxe2]]
    refine ⟨((hperm.map _).nodup_iff).mpr hpairs, ?_, ?_⟩
    · intro s hs
      exact (hmem s (hperm.mem_iff.mp hs)).1
    · have hidsL : (L.map Sig.Signal.id).Nodup := by
        have hmapeq : L.map Sig.Signal.id
            = (L.map (fun s => (s.netuid, s.type))).map
                (fun pr => Sig.mkId env.day pr.1 pr.2) := by
          rw [List.map_map]
          refine List.map_eq_map_iff.mpr ?_
          intro s hs
          exact (hmem s hs).2
        rw [hmapeq]
        refine List.Nodup.map ?_ hpairs
        intro pr1 pr2 hpr
        obtain ⟨hh1, hh2⟩ := Sig.mkId_inj env.day pr1.1 pr2.1 pr1.2 pr2.2 hpr
        exact Prod.ext hh1 hh2
      exact ((hperm.map _).nodup_iff).mpr hidsL


/-- C10 witness: in the concrete one-subnet environment the emitted signal
ids are duplicate-free and the emitted CONCENTRATION_RISK signal carries the
environment's day. -/
theorem C10_witness :
    ((Sig.runSignals Sig.envWithRow).signals.map Sig.Signal.id).Nodup
    ∧ (Sig.mkSig "2025-01-02" 5 .CONCENTRATION_RISK .CRITICAL).day
        = Sig.envWithRow.day :=
  ⟨(C10_signal_ids_unique Sig.envWithRow).2.2,
   (C10_signal_ids_unique Sig.envWithRow).2.1 _ (by
      simp only [Sig.runSignals, Sig.heldNetuids, Sig.evalSubnet, Sig.envWithRow,
        Sig.envNoRow, Sig.preMissing, Sig.concSev, Sig.pvShockSev]
      norm_num [Sig.sortLe, Sig.insertLe, List.dedup])⟩
